import Mathlib

/-!
Verification of the time-string codec (`str_to_time` / `time_to_str`) and the
fixed-width-field unpacker (`unpack_fixed`) of `pyrocko/util.py`, over a
shallow embedding.  Python strings are embedded as `List Char`, Python floats
as exact rationals `ℚ`, and fallible Python code as `Except`/`Option`.  The
external `time.strptime` / `time.strftime` / `calendar.timegm` / `time.gmtime`
collaborators (consumed by the module, per its imports) are embedded from
their documented UTC-calendar semantics, including the multi-width numeric
regular-expression alternatives that CPython's `_strptime` uses.
-/

attribute [local semireducible] Rat.add Rat.mul Rat.inv Rat.sub

deriving instance DecidableEq for Except

namespace Pyrocko

/-- Python strings are embedded as lists of characters. -/
abbrev Str := List Char

/-- The whitespace characters recognised by Python's `str.strip`, `int`,
`float` and by `\s` in its (ASCII) regular expressions. -/
def isPySpace (c : Char) : Bool :=
  c = ' ' ∨ c = '\t' ∨ c = '\n' ∨ c = '\r' ∨ c = '\x0b' ∨ c = '\x0c'

/-- ASCII decimal digit test (`\d` for ASCII input). -/
def isDig (c : Char) : Bool := '0' ≤ c ∧ c ≤ '9'

/-- Numeric value of a digit character. -/
def dv (c : Char) : Nat := c.toNat - 48

/-- The decimal digit character for `n % 10`. -/
def digitChar (n : Nat) : Char :=
  match n % 10 with
  | 0 => '0' | 1 => '1' | 2 => '2' | 3 => '3' | 4 => '4'
  | 5 => '5' | 6 => '6' | 7 => '7' | 8 => '8' | _ => '9'

/-- `n` rendered as exactly `k` decimal digits, zero padded (low digits last). -/
def padDigits : Nat → Nat → Str
  | 0, _ => []
  | k + 1, n => padDigits k (n / 10) ++ [digitChar n]

/-- Two-digit zero-padded rendering (as `strftime` `%m`/`%d`/`%H`/`%M`/`%S`). -/
def pad2 (n : Nat) : Str := padDigits 2 n

/-- Four-digit zero-padded rendering (as `strftime` `%Y` for years 1000–9999). -/
def pad4 (n : Nat) : Str := padDigits 4 n

/-- Decimal rendering of a natural number (fuelled so that it is structural
and kernel-reducible). -/
def natToStrAux : Nat → Nat → Str
  | 0, _ => []
  | fuel + 1, n => if n < 10 then [digitChar n] else natToStrAux fuel (n / 10) ++ [digitChar n]

/-- Decimal rendering of a natural number. -/
def natToStr (n : Nat) : Str := natToStrAux (n + 1) n

/-- Value of a digit string (most significant first). -/
def digitsVal (s : Str) : Nat := s.foldl (fun a c => 10 * a + dv c) 0

/-- Python slice index normalisation: negative indices count from the end and
both ends are clamped to `[0, len]`. -/
def sliceIdx (len : Nat) (i : Int) : Nat :=
  if i < 0 then ((len : Int) + i).toNat else min i.toNat len

/-- Python `s[i:j]`. -/
def pySlice (s : Str) (i j : Int) : Str :=
  (s.take (sliceIdx s.length j)).drop (sliceIdx s.length i)

/-- Python `s[:i]` (note `i` may be negative, e.g. `s[:-1]` drops the last
character). -/
def pySliceTo (s : Str) (i : Int) : Str := pySlice s 0 i

/-- Python `s[i:]`. -/
def pySliceFrom (s : Str) (i : Int) : Str := pySlice s i s.length

/-- Index of the last occurrence of `c`, if any (helper for `rfind`). -/
def pyRfindAux (c : Char) : Str → Option Nat
  | [] => none
  | x :: xs =>
    match pyRfindAux c xs with
    | some i => some (i + 1)
    | none => if x = c then some 0 else none

/-- Python `s.rfind(c)`: index of the last occurrence, or `-1`. -/
def pyRfind (s : Str) (c : Char) : Int :=
  match pyRfindAux c s with
  | some i => (i : Int)
  | none => -1

/-- Python `s.strip()`. -/
def pyStrip (s : Str) : Str :=
  ((s.dropWhile isPySpace).reverse.dropWhile isPySpace).reverse

/-- Python `s.endswith(t)`. -/
def endsWith (s t : Str) : Bool := s.drop (s.length - t.length) = t

/-- Python `int(s)`: optional surrounding whitespace, optional sign, at least
one decimal digit. -/
def pyInt (s : Str) : Option Int :=
  let s := pyStrip s
  match s with
  | '-' :: ds => if ds ≠ [] ∧ ds.all isDig then some (-(digitsVal ds : Int)) else none
  | '+' :: ds => if ds ≠ [] ∧ ds.all isDig then some (digitsVal ds) else none
  | ds => if ds ≠ [] ∧ ds.all isDig then some (digitsVal ds) else none

/-- Split a string at every occurrence of `c` (Python `s.split(c)`: empty
pieces are kept, the result is never empty). -/
def splitOnChar (c : Char) : Str → List Str
  | [] => [[]]
  | a :: rest =>
    let r := splitOnChar c rest
    if a = c then [] :: r else (a :: r.headI) :: r.tail

/-- Unsigned decimal part of `float(s)`: `digits`, `digits.digits`,
`.digits` or `digits.` (at least one digit overall). -/
def pyFloatMag (s : Str) : Option ℚ :=
  match splitOnChar '.' s with
  | [p] =>
    if p ≠ [] ∧ p.all isDig then some (digitsVal p) else none
  | [p, q] =>
    if (p ++ q) ≠ [] ∧ p.all isDig ∧ q.all isDig then
      some ((digitsVal p * 10 ^ q.length + digitsVal q : Nat) / (10 ^ q.length : Nat))
    else none
  | _ => none

/-- Python `float(s)` (decimal forms; exponent forms are outside the inputs
exercised here and map to `none`). -/
def pyFloat (s : Str) : Option ℚ :=
  match pyStrip s with
  | [] => none
  | a :: rest =>
    if a = '-' then (pyFloatMag rest).map (fun q => -q)
    else if a = '+' then pyFloatMag rest
    else pyFloatMag (a :: rest)

/-! ## The UTC calendar (external `calendar.timegm` / `time.gmtime`) -/

/-- Gregorian leap-year test. -/
def isLeap (y : Nat) : Bool := (y % 4 = 0 ∧ y % 100 ≠ 0) ∨ y % 400 = 0

/-- Number of days in year `y`. -/
def daysInYear (y : Nat) : Nat := if isLeap y then 366 else 365

/-- Month lengths, January first. -/
def monthLens (leap : Bool) : List Nat :=
  [31, if leap then 29 else 28, 31, 30, 31, 30, 31, 31, 30, 31, 30, 31]

/-- Days before month `m` (1-based) in a year of the given kind, as used by
`datetime.date.toordinal`. -/
def daysBeforeMonth (leap : Bool) (m : Nat) : Nat := ((monthLens leap).take (m - 1)).sum

/-- `datetime.date(y, m, d).toordinal()`: proleptic-Gregorian day number with
day 1 = 0001-01-01 (requires `1 ≤ y`, `1 ≤ m ≤ 12`). -/
def toordinal (y m d : Nat) : Nat :=
  365 * (y - 1) + (y - 1) / 4 - (y - 1) / 100 + (y - 1) / 400 + daysBeforeMonth (isLeap y) m + d

/-- A broken-down UTC time, as CPython's `time.struct_time` restricted to the
six calendar fields used here.  `time.strptime` defaults to 1900-01-01
00:00:00 for fields the format does not set. -/
structure Tm where
  year : Nat
  month : Nat
  day : Nat
  hour : Nat
  min : Nat
  sec : Nat
deriving DecidableEq

/-- The default `struct_time` produced by `time.strptime` before any
directive fires. -/
def tmDefault : Tm := ⟨1900, 1, 1, 0, 0, 0⟩

/-- `calendar.timegm`: seconds since 1970-01-01T00:00:00Z of a UTC tuple.
CPython computes `date(y, m, 1).toordinal()`, which raises `ValueError`
(modelled as `none`) unless `1 ≤ y ≤ 9999` and `1 ≤ m ≤ 12`; the day is taken
verbatim.  `date(1970, 1, 1).toordinal() = 719163`. -/
def timegm (tm : Tm) : Option Int :=
  if 1 ≤ tm.year ∧ tm.year ≤ 9999 ∧ 1 ≤ tm.month ∧ tm.month ≤ 12 then
    some (((toordinal tm.year tm.month tm.day : Int) - 719163) * 86400
      + tm.hour * 3600 + tm.min * 60 + tm.sec)
  else none

/-- Locate the year containing day `n` (days since `y`-01-01), by walking
whole years; fuelled so the recursion is structural. -/
def findYearAux : Nat → Nat → Nat → Nat × Nat
  | 0, y, n => (y, n)
  | fuel + 1, y, n => if n < daysInYear y then (y, n) else findYearAux fuel (y + 1) (n - daysInYear y)

/-- Year and day-of-year (0-based) of day `n` since 1970-01-01. -/
def findYear (n : Nat) : Nat × Nat := findYearAux (n + 1) 1970 n

/-- Locate the month containing day-of-year `n` (0-based) by walking the
month-length list; returns the 1-based month and the 0-based day-in-month. -/
def findMonthAux : List Nat → Nat → Nat → Nat × Nat
  | [], m, n => (m, n)
  | len :: rest, m, n => if n < len then (m, n) else findMonthAux rest (m + 1) (n - len)

/-- Month (1-based) and day-in-month (0-based) for a day-of-year. -/
def findMonth (leap : Bool) (doy : Nat) : Nat × Nat := findMonthAux (monthLens leap) 1 doy

/-- `time.gmtime` for a non-negative integer timestamp. -/
def gmtimeN (n : Nat) : Tm :=
  let days := n / 86400
  let rem := n % 86400
  let yr := findYear days
  let mo := findMonth (isLeap yr.1) yr.2
  ⟨yr.1, mo.1, mo.2 + 1, rem / 3600, rem % 3600 / 60, rem % 60⟩

/-- `time.gmtime` as used by `time_to_str`; modelled for non-negative
timestamps (negative ones are platform dependent in CPython). -/
def gmtimeZ (ts : Int) : Tm := gmtimeN ts.toNat

/-! ## `time.strptime` (the UTC-calendar parsing facility)

CPython's `_strptime` compiles the format into one regular expression:
each directive becomes an alternation of fixed-width digit patterns
(`%Y ↦ \d\d\d\d`, `%m ↦ 1[0-2]|0[1-9]|[1-9]`, `%d ↦ 3[01]|[12]\d|0[1-9]|[1-9]`,
`%H ↦ 2[0-3]|[0-1]\d|\d`, `%M ↦ [0-5]\d|\d`, `%S ↦ 6[0-1]|[0-5]\d|\d`),
each whitespace run matches `\s+`, and other characters match themselves.
The whole input must be consumed ("unconverted data remains" otherwise).
The embedding lists each token's candidate matches in the regular
expression's alternation order and backtracks over them. -/

/-- Format tokens of the compiled `strptime` pattern. -/
inductive FTok where
  | lit (c : Char)
  | ws
  | dY | dm | dd | dH | dM | dS
deriving DecidableEq

/-- Candidate matches for a whitespace run (`\s+`, greedy: longest first). -/
def wsCands (s : Str) : List (Nat × Str) :=
  let run := (s.takeWhile isPySpace).length
  (List.range run).map (fun k => (0, s.drop (run - k)))

/-- Candidate `(value, rest)` matches of one token against the input, in the
regular expression's alternation order. -/
def matchTok : FTok → Str → List (Nat × Str)
  | .lit c, a :: r => if a = c then [(0, r)] else []
  | .lit _, [] => []
  | .ws, s => wsCands s
  | .dY, a :: b :: c :: d :: r =>
    if isDig a ∧ isDig b ∧ isDig c ∧ isDig d then
      [(((dv a * 10 + dv b) * 10 + dv c) * 10 + dv d, r)]
    else []
  | .dY, _ => []
  | .dm, a :: b :: r =>
    (if a = '1' ∧ '0' ≤ b ∧ b ≤ '2' then [(10 + dv b, r)] else []) ++
    (if a = '0' ∧ '1' ≤ b ∧ b ≤ '9' then [(dv b, r)] else []) ++
    (if '1' ≤ a ∧ a ≤ '9' then [(dv a, b :: r)] else [])
  | .dm, [a] => if '1' ≤ a ∧ a ≤ '9' then [(dv a, [])] else []
  | .dm, [] => []
  | .dd, a :: b :: r =>
    (if a = '3' ∧ ('0' ≤ b ∧ b ≤ '1') then [(30 + dv b, r)] else []) ++
    (if ('1' ≤ a ∧ a ≤ '2') ∧ isDig b then [(dv a * 10 + dv b, r)] else []) ++
    (if a = '0' ∧ '1' ≤ b ∧ b ≤ '9' then [(dv b, r)] else []) ++
    (if '1' ≤ a ∧ a ≤ '9' then [(dv a, b :: r)] else [])
  | .dd, [a] => if '1' ≤ a ∧ a ≤ '9' then [(dv a, [])] else []
  | .dd, [] => []
  | .dH, a :: b :: r =>
    (if a = '2' ∧ '0' ≤ b ∧ b ≤ '3' then [(20 + dv b, r)] else []) ++
    (if ('0' ≤ a ∧ a ≤ '1') ∧ isDig b then [(dv a * 10 + dv b, r)] else []) ++
    (if isDig a then [(dv a, b :: r)] else [])
  | .dH, [a] => if isDig a then [(dv a, [])] else []
  | .dH, [] => []
  | .dM, a :: b :: r =>
    (if ('0' ≤ a ∧ a ≤ '5') ∧ isDig b then [(dv a * 10 + dv b, r)] else []) ++
    (if isDig a then [(dv a, b :: r)] else [])
  | .dM, [a] => if isDig a then [(dv a, [])] else []
  | .dM, [] => []
  | .dS, a :: b :: r =>
    (if a = '6' ∧ '0' ≤ b ∧ b ≤ '1' then [(60 + dv b, r)] else []) ++
    (if ('0' ≤ a ∧ a ≤ '5') ∧ isDig b then [(dv a * 10 + dv b, r)] else []) ++
    (if isDig a then [(dv a, b :: r)] else [])
  | .dS, [a] => if isDig a then [(dv a, [])] else []
  | .dS, [] => []

/-- Store a directive's parsed value in the `struct_time` being built. -/
def applyTok : FTok → Nat → Tm → Tm
  | .dY, v, tm => { tm with year := v }
  | .dm, v, tm => { tm with month := v }
  | .dd, v, tm => { tm with day := v }
  | .dH, v, tm => { tm with hour := v }
  | .dM, v, tm => { tm with min := v }
  | .dS, v, tm => { tm with sec := v }
  | .lit _, _, tm => tm
  | .ws, _, tm => tm

/-- Run the compiled pattern against the input with backtracking; the whole
input must be consumed. -/
def runToks : List FTok → Str → Tm → Option Tm
  | [], s, tm => if s = [] then some tm else none
  | t :: ts, s, tm =>
    (matchTok t s).findSome? (fun vr => runToks ts vr.2 (applyTok t vr.1 tm))

/-- Compile a `strptime` format string into tokens (`none` models the
`ValueError` CPython raises on an unsupported directive).  The flag records
whether the previous character extended a whitespace run: CPython replaces
each whole run by a single `\s+`. -/
def compileFormatAux : Bool → Str → Option (List FTok)
  | _, [] => some []
  | _, '%' :: rest =>
    match rest with
    | [] => none
    | 'Y' :: rest2 => (compileFormatAux false rest2).map (FTok.dY :: ·)
    | 'm' :: rest2 => (compileFormatAux false rest2).map (FTok.dm :: ·)
    | 'd' :: rest2 => (compileFormatAux false rest2).map (FTok.dd :: ·)
    | 'H' :: rest2 => (compileFormatAux false rest2).map (FTok.dH :: ·)
    | 'M' :: rest2 => (compileFormatAux false rest2).map (FTok.dM :: ·)
    | 'S' :: rest2 => (compileFormatAux false rest2).map (FTok.dS :: ·)
    | '%' :: rest2 => (compileFormatAux false rest2).map (FTok.lit '%' :: ·)
    | _ :: _ => none
  | inWs, c :: rest =>
    if isPySpace c then
      if inWs then compileFormatAux true rest
      else (compileFormatAux true rest).map (FTok.ws :: ·)
    else (compileFormatAux false rest).map (FTok.lit c :: ·)

/-- Compile a `strptime` format string into tokens. -/
def compileFormat (s : Str) : Option (List FTok) := compileFormatAux false s

/-- `time.strptime(s, format)`. -/
def strptimeTm (s format : Str) : Option Tm := do
  let toks ← compileFormat format
  runToks toks s tmDefault

/-- `calendar.timegm(time.strptime(s, format))`. -/
def strptimeEpoch (s format : Str) : Option Int := do
  let tm ← strptimeTm s format
  timegm tm

/-! ## `time.strftime` (the UTC-calendar formatting facility) -/

/-- Render one `strftime` directive.  `%Y` is rendered zero padded to four
digits (the relevant behaviour for the years 1000–9999 reachable here);
unrecognised directives pass through unchanged. -/
def fmtDir (c : Char) (tm : Tm) : Str :=
  if c = 'Y' then pad4 tm.year
  else if c = 'm' then pad2 tm.month
  else if c = 'd' then pad2 tm.day
  else if c = 'H' then pad2 tm.hour
  else if c = 'M' then pad2 tm.min
  else if c = 'S' then pad2 tm.sec
  else if c = '%' then ['%']
  else ['%', c]

/-- `time.strftime(format, tm)` for the directives above. -/
def strftime : Str → Tm → Str
  | [], _ => []
  | a :: rest, tm =>
    if a = '%' then
      match rest with
      | [] => ['%']
      | c :: rest2 => fmtDir c tm ++ strftime rest2 tm
    else a :: strftime rest tm

/-! ## `str_to_time` and `time_to_str` (`pyrocko/util.py` lines 240–298) -/

/-- The exceptions `str_to_time` can raise: `FractionalSecondsMissing`
(line 259), `ValueError` from `float` (lines 261/268), and the
`ValueError` from `time.strptime`/`calendar.timegm` (line 271). -/
inductive PyErr where
  | fracMissing
  | valueError
  | parseError
deriving DecidableEq

/-- `str_to_time(s, format)`: convert a UTC time string to an epoch value,
with fractional-second handling via the `.FRAC` / `.OPTFRAC` format markers.
Mirrors `util.py` lines 253–271; in particular in the `.OPTFRAC` branch
`s = s[:dotpos]` is executed even when `dotpos = -1`. -/
def str_to_time (s : Str)
    (format : Str := "%Y-%m-%d %H:%M:%S.OPTFRAC".toList) : Except PyErr ℚ :=
  if endsWith format (".FRAC".toList) then
    if pyRfind s '.' = -1 then .error .fracMissing
    else
      match pyFloat (pySliceFrom s (pyRfind s '.')) with
      | none => .error .valueError
      | some fracsec =>
        match strptimeEpoch (pySliceTo s (pyRfind s '.')) (pySliceTo format (-5)) with
        | none => .error .parseError
        | some e => .ok (e + fracsec)
  else if endsWith format (".OPTFRAC".toList) then
    match (if pyRfind s '.' ≠ -1 ∧ (pySliceFrom s (pyRfind s '.')).length > 1
           then pyFloat (pySliceFrom s (pyRfind s '.')) else some 0) with
    | none => .error .valueError
    | some fracsec =>
      match strptimeEpoch (pySliceTo s (pyRfind s '.')) (pySliceTo format (-8)) with
      | none => .error .parseError
      | some e => .ok (e + fracsec)
  else
    match strptimeEpoch s format with
    | none => .error .parseError
    | some e => .ok (e + 0)

/-- Round to the nearest integer, ties to even: the rounding C's `printf`
(hence Python's `'%f'` formatting) applies to its argument's exact value. -/
def rhe (x : ℚ) : Int :=
  if x - ⌊x⌋ < 1 / 2 then ⌊x⌋
  else if 1 / 2 < x - ⌊x⌋ then ⌊x⌋ + 1
  else if ⌊x⌋ % 2 = 0 then ⌊x⌋ else ⌊x⌋ + 1

/-- `'%.Xf' % v` for `v ≥ 0`: fixed-point rendering with `X` fractional
digits. -/
def formatFixed (X : Nat) (v : ℚ) : Str :=
  natToStr ((rhe (10 ^ X * v)).toNat / 10 ^ X) ++
    (if X = 0 then [] else '.' :: padDigits X ((rhe (10 ^ X * v)).toNat % 10 ^ X))

/-- Leftmost match of the regular expression `%.\df` compiled at `util.py`
line 290 (note the unescaped `.`: any character but a newline may stand
between `%` and the digit): returns the match position and the digit. -/
def reFracSearch : Nat → Str → Option (Nat × Nat)
  | i, a :: b :: c :: d :: rest =>
    if a = '%' ∧ b ≠ '\n' ∧ isDig c ∧ d = 'f' then some (i, dv c)
    else reFracSearch (i + 1) (b :: c :: d :: rest)
  | _, _ => none

/-- `time_to_str(t, format)`: format an epoch value, substituting the first
`%.\df` match by the fractional digits (`util.py` lines 289–298).  The result
is `none` when the `'%<c><X>f' % tfrac` interpolation would itself raise,
i.e. when the matched middle character is not `'.'`; the formats exercised by
the specification always use a literal dot. -/
def time_to_str (t : ℚ)
    (format : Str := "%Y-%m-%d %H:%M:%S.%.3f".toList) : Option Str :=
  let ts : Int := ⌊t⌋
  let tfrac : ℚ := t - ts
  match reFracSearch 0 format with
  | some (i, X) =>
    if (format.drop (i + 1)).head? = some '.' then
      some (strftime (format.take i ++ (formatFixed X tfrac).drop 2 ++ format.drop (i + 4))
        (gmtimeZ ts))
    else none
  | none => some (strftime format (gmtimeZ ts))

/-! ## `unpack_fixed` (`pyrocko/util.py` lines 456–510) -/

/-- A value produced by a field conversion. -/
inductive Val where
  | vStr (s : Str)
  | vInt (z : Int)
  | vFloat (q : ℚ)
deriving DecidableEq

/-- A caller-supplied conversion callback for `@` fields (`none` models the
callback raising). -/
abbrev Cb := Str → Option Val

/-- Failures of `unpack_fixed`: an unparsable field descriptor (`IndexError` /
`ValueError` while reading it), an unknown type code (`KeyError` at line 494),
exhausted callbacks (`IndexError` at line 496), and a failed conversion
(line 506, which reports positions `[ipos:ipos+1]` — and in fact names the
undefined `SeisanResponseFileError`, so a `NameError` surfaces at runtime). -/
inductive UErr where
  | badForm
  | unknownType
  | callbackExhausted
  | castError (lo hi : Int)
deriving DecidableEq

/-- The loop state of `unpack_fixed`: cursor, callback index, accumulated
values (`none` is Python's `None` for blank optional fields). -/
structure UState where
  ipos : Int
  icall : Nat
  values : List (Option Val)
deriving DecidableEq

/-- Parse one comma-separated field descriptor: trailing `?` marks the field
optional (`form[-1] == '?'`, then `form.rstrip('?')`), the first remaining
character is the type code and the rest the width via `int(...)`. -/
def parseForm (form : Str) : Option (Bool × Char × Int) :=
  match form.getLast? with
  | none => none
  | some lastc =>
    let isOpt := lastc = '?'
    match (form.reverse.dropWhile (· = '?')).reverse with
    | [] => none
    | t :: ws => (pyInt ws).map (fun w => (isOpt, t, w))

/-- The conversion selected for a type code, or `.none` for `x`; `@` is
handled separately at the call site. -/
def castFor (typ : Char) : Option Cb :=
  if typ = 'x' then none
  else if typ = 'A' then some (fun s => some (.vStr s))
  else if typ = 'a' then some (fun s => some (.vStr (pyStrip s)))
  else if typ = 'i' then some (fun s => (pyInt s).map .vInt)
  else if typ = 'f' then some (fun s => (pyFloat s).map .vFloat)
  else some (fun _ => none)

/-- Process one field: select the conversion (consuming a callback for `@`
before the blank test), slice `line[ipos:ipos+l]`, convert or append `None`,
and advance the cursor by the declared width. -/
def unpackStep (line : Str) (callargs : List Cb) (form : Str) (st : UState) :
    Except UErr UState :=
  match parseForm form with
  | none => .error .badForm
  | some (isOpt, typ, w) =>
    let s := pySlice line st.ipos (st.ipos + w)
    if typ = 'x' then .ok { st with ipos := st.ipos + w }
    else if typ = 'A' ∨ typ = 'a' ∨ typ = 'i' ∨ typ = 'f' ∨ typ = '@' then
      let pick : Except UErr (Cb × Nat) :=
        if typ = '@' then
          match callargs[st.icall]? with
          | none => .error .callbackExhausted
          | some cb => .ok (cb, st.icall + 1)
        else
          match castFor typ with
          | some cb => .ok (cb, st.icall)
          | none => .error .unknownType
      match pick with
      | .error e => .error e
      | .ok (cast, icall2) =>
        if isOpt ∧ pyStrip s = [] then
          .ok ⟨st.ipos + w, icall2, st.values ++ [none]⟩
        else
          match cast s with
          | some v => .ok ⟨st.ipos + w, icall2, st.values ++ [some v]⟩
          | none => .error (.castError st.ipos (st.ipos + 1))
    else .error .unknownType

/-- The field loop of `unpack_fixed`. -/
def unpackLoop (line : Str) (callargs : List Cb) : List Str → UState → Except UErr UState
  | [], st => .ok st
  | f :: fs, st =>
    match unpackStep line callargs f st with
    | .error e => .error e
    | .ok st2 => unpackLoop line callargs fs st2

/-- Python `format.split(',')`. -/
def splitComma (s : Str) : List Str := splitOnChar ',' s

/-- `unpack_fixed(format, line, *callargs)`. -/
def unpack_fixed (format line : Str) (callargs : List Cb) :
    Except UErr (List (Option Val)) :=
  (unpackLoop line callargs (splitComma format) ⟨0, 0, []⟩).map (·.values)

/-- The token list compiled from `"%Y-%m-%d %H:%M:%S"`. -/
def defaultToks : List FTok :=
  [.dY, .lit '-', .dm, .lit '-', .dd, .ws, .dH, .lit ':', .dM, .lit ':', .dS]

/-- The string `strftime` produces for `"%Y-%m-%d %H:%M:%S"`. -/
def renderTm (tm : Tm) : Str :=
  pad4 tm.year ++ '-' :: (pad2 tm.month ++ '-' :: (pad2 tm.day ++ ' ' ::
    (pad2 tm.hour ++ ':' :: (pad2 tm.min ++ ':' :: pad2 tm.sec))))

/-- Days from `y0`-01-01 over the next `k` whole years. -/
def daysBetweenAux (y0 : Nat) : Nat → Nat
  | 0 => 0
  | k + 1 => daysBetweenAux y0 k + daysInYear (y0 + k)

/-- Days from `y0`-01-01 to `y`-01-01 (for `y0 ≤ y`). -/
def daysBetween (y0 y : Nat) : Nat := daysBetweenAux y0 (y - y0)

/-- The prefix of `toordinal` that depends only on the year. -/
def yearOrd (y : Nat) : Nat :=
  365 * (y - 1) + (y - 1) / 4 - (y - 1) / 100 + (y - 1) / 400

/-- Absolute value on the rationals (explicitly, to keep statements
evaluable). -/
def ratAbs (q : ℚ) : ℚ := if q < 0 then -q else q

/-- The declared width of a field descriptor (`0` when the descriptor does
not parse); used to state the cursor-advance invariant. -/
def widthOf (form : Str) : Int :=
  match parseForm form with
  | some (_, _, w) => w
  | none => 0

/-! ## Digit and character lemmas -/

theorem toNat_digitChar (a : Nat) : (digitChar a).toNat = 48 + a % 10 := by
  unfold digitChar
  have h : a % 10 < 10 := Nat.mod_lt _ (by omega)
  generalize a % 10 = r at *
  interval_cases r <;> decide

theorem charLe_iff (c d : Char) : (c ≤ d) ↔ c.toNat ≤ d.toNat := Char.le_def

theorem charEq_iff (c d : Char) : (c = d) ↔ c.toNat = d.toNat := by
  constructor
  · intro h; rw [h]
  · intro h
    exact Char.eq_of_val_eq (UInt32.toNat.inj h)

theorem isDig_iff (c : Char) : isDig c = true ↔ 48 ≤ c.toNat ∧ c.toNat ≤ 57 := by
  have h0 : Char.toNat '0' = 48 := rfl
  have h9 : Char.toNat '9' = 57 := rfl
  simp only [isDig, decide_eq_true_eq, charLe_iff, h0, h9]

theorem isDig_digitChar (a : Nat) : isDig (digitChar a) = true := by
  rw [isDig_iff, toNat_digitChar]
  omega

theorem dv_digitChar (a : Nat) : dv (digitChar a) = a % 10 := by
  simp [dv, toNat_digitChar]

theorem isPySpace_iff (c : Char) :
    isPySpace c = true ↔
      c.toNat = 32 ∨ c.toNat = 9 ∨ c.toNat = 10 ∨ c.toNat = 13 ∨ c.toNat = 11 ∨ c.toNat = 12 := by
  have h1 : Char.toNat ' ' = 32 := rfl
  have h2 : Char.toNat '\t' = 9 := rfl
  have h3 : Char.toNat '\n' = 10 := rfl
  have h4 : Char.toNat '\r' = 13 := rfl
  have h5 : Char.toNat '\x0b' = 11 := rfl
  have h6 : Char.toNat '\x0c' = 12 := rfl
  simp only [isPySpace, decide_eq_true_eq, charEq_iff, h1, h2, h3, h4, h5, h6]

theorem isPySpace_digitChar (a : Nat) : isPySpace (digitChar a) = false := by
  rw [Bool.eq_false_iff]
  intro h
  rw [isPySpace_iff, toNat_digitChar] at h
  omega

theorem digitChar_ne_dot (a : Nat) : digitChar a ≠ '.' := by
  rw [Ne, charEq_iff, toNat_digitChar]
  have : Char.toNat '.' = 46 := rfl
  omega

theorem digitChar_ne_percent (a : Nat) : digitChar a ≠ '%' := by
  rw [Ne, charEq_iff, toNat_digitChar]
  have : Char.toNat '%' = 37 := rfl
  omega

theorem pad2_eq (n : Nat) : pad2 n = [digitChar (n / 10), digitChar n] := by
  simp [pad2, padDigits]

theorem pad4_eq (n : Nat) :
    pad4 n = [digitChar (n / 10 / 10 / 10), digitChar (n / 10 / 10), digitChar (n / 10), digitChar n] := by
  simp [pad4, padDigits]

/-- Decoding a zero-padded digit string recovers the value modulo `10 ^ k`. -/
theorem digitsVal_padDigits (k n : Nat) : digitsVal (padDigits k n) = n % 10 ^ k := by
  induction k generalizing n with
  | zero =>
    simp only [padDigits, digitsVal, List.foldl_nil, pow_zero]
    omega
  | succ k ih =>
    have hfold : ∀ (l : Str) (c : Char),
        digitsVal (l ++ [c]) = 10 * digitsVal l + dv c := by
      intro l c
      simp [digitsVal, List.foldl_append]
    rw [padDigits, hfold, ih, dv_digitChar]
    have h2 : (10 : Nat) ^ (k + 1) = 10 * 10 ^ k := by ring
    rw [h2, Nat.mod_mul]
    omega

theorem all_isDig_padDigits (k n : Nat) : (padDigits k n).all isDig = true := by
  induction k generalizing n with
  | zero => simp [padDigits]
  | succ k ih =>
    rw [padDigits]
    simp only [List.all_append, List.all_cons, List.all_nil]
    rw [ih, isDig_digitChar]
    rfl

theorem dot_notMem_padDigits (k n : Nat) : '.' ∉ padDigits k n := by
  induction k generalizing n with
  | zero => simp [padDigits]
  | succ k ih =>
    rw [padDigits]
    simp only [List.mem_append, List.mem_singleton]
    rintro (h | h)
    · exact ih _ h
    · exact digitChar_ne_dot n h.symm

/-! ## Matching a directive against its own zero-padded rendering

For each directive, matching the padded rendering of an in-range value puts
`(value, rest)` first in the candidate list. -/

theorem matchTok_lit (c : Char) (r : Str) : matchTok (.lit c) (c :: r) = [(0, r)] := by
  simp [matchTok]

theorem matchTok_ws (rest : Str) (h : rest.takeWhile isPySpace = []) :
    matchTok .ws (' ' :: rest) = [(0, rest)] := by
  have hsp : isPySpace ' ' = true := rfl
  simp [matchTok, wsCands, List.takeWhile_cons, hsp, h, List.range_succ]

theorem matchTok_dY (v : Nat) (hv : v < 10000) (rest : Str) :
    matchTok .dY (pad4 v ++ rest) = [(v, rest)] := by
  have h1 := dv_digitChar (v / 10 / 10 / 10)
  have h2 := dv_digitChar (v / 10 / 10)
  have h3 := dv_digitChar (v / 10)
  have h4 := dv_digitChar v
  rw [pad4_eq]
  simp only [List.cons_append, List.nil_append]
  rw [matchTok]
  rw [if_pos ⟨isDig_digitChar _, isDig_digitChar _, isDig_digitChar _, isDig_digitChar _⟩]
  rw [h1, h2, h3, h4]
  have : ((v / 10 / 10 / 10 % 10 * 10 + v / 10 / 10 % 10) * 10 + v / 10 % 10) * 10 + v % 10 = v := by
    omega
  rw [this]

theorem matchTok_dm_head (v : Nat) (h1 : 1 ≤ v) (h2 : v ≤ 12) (rest : Str) :
    (matchTok .dm (pad2 v ++ rest)).head? = some (v, rest) := by
  have ha := toNat_digitChar (v / 10)
  have hb := toNat_digitChar v
  have c0 : Char.toNat '0' = 48 := rfl
  have c1 : Char.toNat '1' = 49 := rfl
  have c2 : Char.toNat '2' = 50 := rfl
  have c9 : Char.toNat '9' = 57 := rfl
  rw [pad2_eq]
  simp only [List.cons_append, List.nil_append]
  rw [matchTok]
  by_cases hv : v ≤ 9
  · have hd : v / 10 = 0 := by omega
    rw [if_neg, if_pos]
    · simp only [List.nil_append, List.cons_append, List.head?_cons]
      rw [dv_digitChar]
      have : v % 10 = v := by omega
      rw [this]
    · refine ⟨?_, ?_, ?_⟩
      · rw [charEq_iff, ha, c0]; omega
      · rw [charLe_iff, hb, c1]; omega
      · rw [charLe_iff, hb, c9]; omega
    · rintro ⟨hA, -⟩
      rw [charEq_iff, ha, c1] at hA
      omega
  · rw [if_pos]
    · simp only [List.cons_append, List.head?_cons]
      rw [dv_digitChar]
      have : 10 + v % 10 = v := by omega
      rw [this]
    · refine ⟨?_, ?_, ?_⟩
      · rw [charEq_iff, ha, c1]; omega
      · rw [charLe_iff, hb, c0]; omega
      · rw [charLe_iff, hb, c2]; omega

theorem matchTok_dd_head (v : Nat) (h1 : 1 ≤ v) (h2 : v ≤ 31) (rest : Str) :
    (matchTok .dd (pad2 v ++ rest)).head? = some (v, rest) := by
  have ha := toNat_digitChar (v / 10)
  have hb := toNat_digitChar v
  have c0 : Char.toNat '0' = 48 := rfl
  have c1 : Char.toNat '1' = 49 := rfl
  have c2 : Char.toNat '2' = 50 := rfl
  have c3 : Char.toNat '3' = 51 := rfl
  have c9 : Char.toNat '9' = 57 := rfl
  rw [pad2_eq]
  simp only [List.cons_append, List.nil_append]
  rw [matchTok]
  by_cases hv9 : v ≤ 9
  · have hd : v / 10 = 0 := by omega
    rw [if_neg, if_neg, if_pos]
    · simp only [List.nil_append, List.cons_append, List.head?_cons]
      rw [dv_digitChar]
      have : v % 10 = v := by omega
      rw [this]
    · refine ⟨?_, ?_, ?_⟩
      · rw [charEq_iff, ha, c0]; omega
      · rw [charLe_iff, hb, c1]; omega
      · rw [charLe_iff, hb, c9]; omega
    · rintro ⟨⟨hA, -⟩, -⟩
      rw [charLe_iff, ha, c1] at hA
      omega
    · rintro ⟨hA, -⟩
      rw [charEq_iff, ha, c3] at hA
      omega
  · by_cases hv29 : v ≤ 29
    · rw [if_neg, if_pos]
      · simp only [List.nil_append, List.cons_append, List.head?_cons]
        rw [dv_digitChar, dv_digitChar]
        have : v / 10 % 10 * 10 + v % 10 = v := by omega
        rw [this]
      · refine ⟨⟨?_, ?_⟩, isDig_digitChar _⟩
        · rw [charLe_iff, ha, c1]; omega
        · rw [charLe_iff, ha, c2]; omega
      · rintro ⟨hA, -⟩
        rw [charEq_iff, ha, c3] at hA
        omega
    · rw [if_pos]
      · simp only [List.cons_append, List.head?_cons]
        rw [dv_digitChar]
        have : 30 + v % 10 = v := by omega
        rw [this]
      · refine ⟨?_, ?_, ?_⟩
        · rw [charEq_iff, ha, c3]; omega
        · rw [charLe_iff, hb, c0]; omega
        · rw [charLe_iff, hb, c1]; omega

theorem matchTok_dH_head (v : Nat) (h2 : v ≤ 23) (rest : Str) :
    (matchTok .dH (pad2 v ++ rest)).head? = some (v, rest) := by
  have ha := toNat_digitChar (v / 10)
  have hb := toNat_digitChar v
  have c0 : Char.toNat '0' = 48 := rfl
  have c1 : Char.toNat '1' = 49 := rfl
  have c2 : Char.toNat '2' = 50 := rfl
  have c3 : Char.toNat '3' = 51 := rfl
  rw [pad2_eq]
  simp only [List.cons_append, List.nil_append]
  rw [matchTok]
  by_cases hv : v ≤ 19
  · rw [if_neg, if_pos]
    · simp only [List.nil_append, List.cons_append, List.head?_cons]
      rw [dv_digitChar, dv_digitChar]
      have : v / 10 % 10 * 10 + v % 10 = v := by omega
      rw [this]
    · refine ⟨⟨?_, ?_⟩, isDig_digitChar _⟩
      · rw [charLe_iff, ha, c0]; omega
      · rw [charLe_iff, ha, c1]; omega
    · rintro ⟨hA, -⟩
      rw [charEq_iff, ha, c2] at hA
      omega
  · rw [if_pos]
    · simp only [List.cons_append, List.head?_cons]
      rw [dv_digitChar]
      have : 20 + v % 10 = v := by omega
      rw [this]
    · refine ⟨?_, ?_, ?_⟩
      · rw [charEq_iff, ha, c2]; omega
      · rw [charLe_iff, hb, c0]; omega
      · rw [charLe_iff, hb, c3]; omega

theorem matchTok_dM_head (v : Nat) (h2 : v ≤ 59) (rest : Str) :
    (matchTok .dM (pad2 v ++ rest)).head? = some (v, rest) := by
  have ha := toNat_digitChar (v / 10)
  have hb := toNat_digitChar v
  have c0 : Char.toNat '0' = 48 := rfl
  have c5 : Char.toNat '5' = 53 := rfl
  rw [pad2_eq]
  simp only [List.cons_append, List.nil_append]
  rw [matchTok]
  rw [if_pos]
  · simp only [List.cons_append, List.head?_cons]
    rw [dv_digitChar, dv_digitChar]
    have : v / 10 % 10 * 10 + v % 10 = v := by omega
    rw [this]
  · refine ⟨⟨?_, ?_⟩, isDig_digitChar _⟩
    · rw [charLe_iff, ha, c0]; omega
    · rw [charLe_iff, ha, c5]; omega

theorem matchTok_dS_head (v : Nat) (h2 : v ≤ 59) (rest : Str) :
    (matchTok .dS (pad2 v ++ rest)).head? = some (v, rest) := by
  have ha := toNat_digitChar (v / 10)
  have hb := toNat_digitChar v
  have c0 : Char.toNat '0' = 48 := rfl
  have c5 : Char.toNat '5' = 53 := rfl
  have c6 : Char.toNat '6' = 54 := rfl
  rw [pad2_eq]
  simp only [List.cons_append, List.nil_append]
  rw [matchTok]
  rw [if_neg, if_pos]
  · simp only [List.nil_append, List.cons_append, List.head?_cons]
    rw [dv_digitChar, dv_digitChar]
    have : v / 10 % 10 * 10 + v % 10 = v := by omega
    rw [this]
  · refine ⟨⟨?_, ?_⟩, isDig_digitChar _⟩
    · rw [charLe_iff, ha, c0]; omega
    · rw [charLe_iff, ha, c5]; omega
  · rintro ⟨hA, -⟩
    rw [charEq_iff, ha, c6] at hA
    omega

/-! ## Running the compiled pattern over a rendered timestamp -/

/-- If the head candidate's continuation succeeds, backtracking returns it. -/
theorem runToks_cons_head {t : FTok} {ts : List FTok} {s : Str} {tm : Tm} {v : Nat}
    {rest : Str} {tm2 : Tm}
    (hhead : (matchTok t s).head? = some (v, rest))
    (hcont : runToks ts rest (applyTok t v tm) = some tm2) :
    runToks (t :: ts) s tm = some tm2 := by
  rw [runToks]
  cases hm : matchTok t s with
  | nil => rw [hm] at hhead; simp at hhead
  | cons a l =>
    rw [hm] at hhead
    simp only [List.head?_cons, Option.some.injEq] at hhead
    subst hhead
    rw [List.findSome?]
    rw [hcont]

theorem compile_defaultFmt : compileFormat ("%Y-%m-%d %H:%M:%S".toList) = some defaultToks := by
  decide

/-- Parsing the rendered timestamp of an in-range `Tm` recovers it. -/
theorem runToks_render (tm : Tm) (hY : tm.year < 10000)
    (hm1 : 1 ≤ tm.month) (hm2 : tm.month ≤ 12)
    (hd1 : 1 ≤ tm.day) (hd2 : tm.day ≤ 31)
    (hH : tm.hour ≤ 23) (hM : tm.min ≤ 59) (hS : tm.sec ≤ 59) :
    runToks defaultToks (renderTm tm) tmDefault = some tm := by
  obtain ⟨Y, mo, d, H, M, S⟩ := tm
  simp only at hY hm1 hm2 hd1 hd2 hH hM hS
  rw [defaultToks, renderTm]
  simp only
  apply runToks_cons_head
  · rw [matchTok_dY Y hY]; rfl
  apply runToks_cons_head
  · rw [matchTok_lit]; rfl
  apply runToks_cons_head
  · exact matchTok_dm_head mo hm1 hm2 _
  apply runToks_cons_head
  · rw [matchTok_lit]; rfl
  apply runToks_cons_head
  · exact matchTok_dd_head d hd1 hd2 _
  apply runToks_cons_head
  · have hws : (pad2 H ++ ':' :: (pad2 M ++ ':' :: pad2 S)).takeWhile isPySpace = [] := by
      rw [pad2_eq]
      simp [List.takeWhile_cons, isPySpace_digitChar]
    rw [matchTok_ws _ hws]; rfl
  apply runToks_cons_head
  · exact matchTok_dH_head H hH _
  apply runToks_cons_head
  · rw [matchTok_lit]; rfl
  apply runToks_cons_head
  · exact matchTok_dM_head M hM _
  apply runToks_cons_head
  · rw [matchTok_lit]; rfl
  apply runToks_cons_head
  · exact matchTok_dS_head S hS _
  rfl

/-! ## Calendar arithmetic: `timegm` inverts `gmtime` -/

theorem daysInYear_ge (y : Nat) : 365 ≤ daysInYear y := by
  rw [daysInYear]
  split <;> omega

theorem daysBetweenAux_front (y0 k : Nat) :
    daysBetweenAux y0 (k + 1) = daysInYear y0 + daysBetweenAux (y0 + 1) k := by
  induction k with
  | zero => simp [daysBetweenAux]
  | succ k ih =>
    rw [daysBetweenAux, ih, daysBetweenAux]
    have : y0 + 1 + k = y0 + (k + 1) := by omega
    rw [this]
    omega

theorem daysBetween_front (y0 y : Nat) (h : y0 < y) :
    daysBetween y0 y = daysInYear y0 + daysBetween (y0 + 1) y := by
  have h1 : y - y0 = (y - (y0 + 1)) + 1 := by omega
  rw [daysBetween, h1, daysBetweenAux_front, daysBetween]

theorem daysBetween_back (y0 y : Nat) (h : y0 ≤ y) :
    daysBetween y0 (y + 1) = daysBetween y0 y + daysInYear y := by
  have h1 : y + 1 - y0 = (y - y0) + 1 := by omega
  rw [daysBetween, h1, daysBetweenAux, daysBetween]
  have : y0 + (y - y0) = y := by omega
  rw [this]

theorem daysBetweenAux_mono (y0 : Nat) {k1 k2 : Nat} (h : k1 ≤ k2) :
    daysBetweenAux y0 k1 ≤ daysBetweenAux y0 k2 := by
  induction k2 with
  | zero => simp_all
  | succ k ih =>
    rcases Nat.lt_or_ge k1 (k + 1) with h2 | h2
    · have := ih (by omega)
      rw [daysBetweenAux]
      omega
    · have h3 : k1 = k + 1 := by omega
      rw [h3]

/-- The year search is correct: it lands in the year whose day range
contains `n`. -/
theorem findYearAux_spec :
    ∀ (fuel y0 n : Nat), n < 365 * fuel →
      y0 ≤ (findYearAux fuel y0 n).1 ∧
      (findYearAux fuel y0 n).2 < daysInYear (findYearAux fuel y0 n).1 ∧
      daysBetween y0 (findYearAux fuel y0 n).1 + (findYearAux fuel y0 n).2 = n := by
  intro fuel
  induction fuel with
  | zero => intro y0 n h; omega
  | succ fuel ih =>
    intro y0 n h
    rw [findYearAux]
    by_cases h2 : n < daysInYear y0
    · simp only [if_pos h2]
      refine ⟨le_refl _, h2, ?_⟩
      have : daysBetween y0 y0 = 0 := by
        simp [daysBetween, daysBetweenAux]
      omega
    · simp only [if_neg h2]
      have h365 := daysInYear_ge y0
      have hrec := ih (y0 + 1) (n - daysInYear y0) (by omega)
      obtain ⟨hA, hB, hC⟩ := hrec
      refine ⟨by omega, hB, ?_⟩
      rw [daysBetween_front y0 _ (by omega)]
      omega

theorem toordinal_eq (y m d : Nat) :
    toordinal y m d = yearOrd y + daysBeforeMonth (isLeap y) m + d := rfl

set_option maxHeartbeats 2000000 in
theorem yearOrd_step (y : Nat) (h : 1 ≤ y) : yearOrd (y + 1) = yearOrd y + daysInYear y := by
  have hP : isLeap y = true ↔ (y % 4 = 0 ∧ y % 100 ≠ 0) ∨ y % 400 = 0 := by simp [isLeap]
  cases hL : isLeap y with
  | true =>
    have hPP := hP.mp hL
    rw [yearOrd, yearOrd, daysInYear, hL, if_pos rfl]
    simp only [Nat.add_sub_cancel]
    omega
  | false =>
    have hPP : ¬ ((y % 4 = 0 ∧ y % 100 ≠ 0) ∨ y % 400 = 0) := by
      intro hx
      have h3 := hP.mpr hx
      rw [hL] at h3
      exact Bool.false_ne_true h3
    rw [yearOrd, yearOrd, daysInYear, hL, if_neg (by simp)]
    simp only [Nat.add_sub_cancel]
    omega

theorem yearOrd_from_1970 (y : Nat) (h : 1970 ≤ y) :
    yearOrd y = 719162 + daysBetween 1970 y := by
  induction y, h using Nat.le_induction with
  | base =>
    have h1 : yearOrd 1970 = 719162 := by norm_num [yearOrd]
    have h2 : daysBetween 1970 1970 = 0 := by simp [daysBetween, daysBetweenAux]
    omega
  | succ y hy ih =>
    rw [yearOrd_step y (by omega), daysBetween_back 1970 y (by omega)]
    omega

theorem daysBetween_1970_10000 : daysBetween 1970 10000 = 2932897 := by
  have h1 := yearOrd_from_1970 10000 (by omega)
  have h2 : yearOrd 10000 = 3652059 := by norm_num [yearOrd]
  omega

/-- The month search is correct. -/
theorem findMonthAux_spec :
    ∀ (ls : List Nat) (m0 n : Nat), n < ls.sum →
      ∃ k, k < ls.length ∧ findMonthAux ls m0 n = (m0 + k, n - (ls.take k).sum) ∧
        (ls.take k).sum ≤ n ∧ n < (ls.take (k + 1)).sum := by
  intro ls
  induction ls with
  | nil => intro m0 n h; simp at h
  | cons len rest ih =>
    intro m0 n h
    rw [findMonthAux]
    by_cases h2 : n < len
    · refine ⟨0, by simp, ?_, by simp, ?_⟩
      · simp [if_pos h2]
      · simpa using h2
    · simp only [if_neg h2]
      have hsum : rest.sum > n - len ∨ True := Or.inr trivial
      have hrec := ih (m0 + 1) (n - len) (by simp at h; omega)
      obtain ⟨k, hk, heq, hlo, hhi⟩ := hrec
      refine ⟨k + 1, by simpa using hk, ?_, ?_, ?_⟩
      · rw [heq]
        have h3 : m0 + 1 + k = m0 + (k + 1) := by omega
        have h4 : ((len :: rest).take (k + 1 + 1)).sum = len + (rest.take (k + 1)).sum := by
          simp [List.take_succ_cons]
        simp only [List.take_succ_cons, List.sum_cons, h3]
        congr 1
        omega
      · simp only [List.take_succ_cons, List.sum_cons]
        omega
      · simp only [List.take_succ_cons, List.sum_cons]
        omega

theorem sum_monthLens (b : Bool) : (monthLens b).sum = if b then 366 else 365 := by
  cases b <;> decide

theorem monthLens_le (b : Bool) : ∀ x ∈ monthLens b, x ≤ 31 := by
  cases b <;> decide

/-- `gmtime` produces in-range fields and `timegm` inverts it, for timestamps
below the year-10000 boundary `253402300800`. -/
theorem gmtimeN_spec (n : Nat) (hn : n < 253402300800) :
    1970 ≤ (gmtimeN n).year ∧ (gmtimeN n).year ≤ 9999 ∧
    1 ≤ (gmtimeN n).month ∧ (gmtimeN n).month ≤ 12 ∧
    1 ≤ (gmtimeN n).day ∧ (gmtimeN n).day ≤ 31 ∧
    (gmtimeN n).hour ≤ 23 ∧ (gmtimeN n).min ≤ 59 ∧ (gmtimeN n).sec ≤ 59 ∧
    timegm (gmtimeN n) = some (n : Int) := by
  have hdays : n / 86400 < 2932897 := by omega
  have hrem : n % 86400 < 86400 := Nat.mod_lt _ (by omega)
  have hsplit : 86400 * (n / 86400) + n % 86400 = n := Nat.div_add_mod n 86400
  obtain ⟨hy0, hdoy, hdb⟩ :=
    findYearAux_spec (n / 86400 + 1) 1970 (n / 86400) (by omega)
  set yr := findYearAux (n / 86400 + 1) 1970 (n / 86400) with hyr
  have hylt : yr.1 ≤ 9999 := by
    by_contra hcon
    have h1 : daysBetween 1970 yr.1 ≥ daysBetween 1970 10000 := by
      rw [daysBetween, daysBetween]
      exact daysBetweenAux_mono 1970 (by omega)
    rw [daysBetween_1970_10000] at h1
    omega
  have hdoy2 : yr.2 < (monthLens (isLeap yr.1)).sum := by
    rw [sum_monthLens]
    rw [daysInYear] at hdoy
    split <;> split at hdoy <;> simp_all
  obtain ⟨k, hk, hfm, hlo, hhi⟩ := findMonthAux_spec (monthLens (isLeap yr.1)) 1 yr.2 hdoy2
  have hlen : (monthLens (isLeap yr.1)).length = 12 := by
    cases isLeap yr.1 <;> decide
  have hk12 : k < 12 := by omega
  have hgetle : ((monthLens (isLeap yr.1)).take (k + 1)).sum ≤
      ((monthLens (isLeap yr.1)).take k).sum + 31 := by
    rcases Nat.lt_or_ge k (monthLens (isLeap yr.1)).length with hlt | hge
    · rw [List.sum_take_succ _ _ hlt]
      have := monthLens_le (isLeap yr.1) _ (List.getElem_mem hlt)
      omega
    · omega
  -- unfold gmtimeN
  have hgm : gmtimeN n =
      ⟨yr.1, (findMonth (isLeap yr.1) yr.2).1, (findMonth (isLeap yr.1) yr.2).2 + 1,
        n % 86400 / 3600, n % 86400 % 3600 / 60, n % 86400 % 60⟩ := by
    rw [gmtimeN, findYear]
  rw [findMonth, hfm] at hgm
  rw [hgm]
  simp only
  refine ⟨hy0, hylt, by omega, by omega, by omega, by omega, by omega, by omega, by omega, ?_⟩
  rw [timegm]
  simp only
  rw [if_pos (by refine ⟨by omega, by omega, by omega, by omega⟩)]
  have hdbm : daysBeforeMonth (isLeap yr.1) (1 + k) = ((monthLens (isLeap yr.1)).take k).sum := by
    rw [daysBeforeMonth]
    have hkk : 1 + k - 1 = k := by omega
    rw [hkk]
  have hord : toordinal yr.1 (1 + k) (yr.2 - ((monthLens (isLeap yr.1)).take k).sum + 1) =
      719163 + n / 86400 := by
    rw [toordinal_eq, yearOrd_from_1970 yr.1 hy0, hdbm]
    omega
  rw [hord]
  congr 1
  push_cast
  omega

/-! ## String-level lemmas: `rfind`, slicing, `strip`, `float` -/

theorem pyRfindAux_none {c : Char} : ∀ {s : Str}, c ∉ s → pyRfindAux c s = none := by
  intro s
  induction s with
  | nil => intro _; rfl
  | cons x xs ih =>
    intro h
    have h1 : ¬(c = x ∨ c ∈ xs) := by simpa [List.mem_cons] using h
    push_neg at h1
    simp only [pyRfindAux, ih h1.2]
    rw [if_neg (fun he => h1.1 he.symm)]

theorem pyRfindAux_append {c : Char} (a : Str) {b : Str} (hb : c ∉ b) :
    pyRfindAux c (a ++ c :: b) = some a.length := by
  induction a with
  | nil =>
    rw [List.nil_append]
    simp only [pyRfindAux, pyRfindAux_none hb]
    simp
  | cons x xs ih =>
    rw [List.cons_append]
    simp only [pyRfindAux, ih]
    rfl

theorem pyRfind_append {c : Char} (a : Str) {b : Str} (hb : c ∉ b) :
    pyRfind (a ++ c :: b) c = (a.length : Int) := by
  rw [pyRfind, pyRfindAux_append a hb]

theorem sliceIdx_ofNat (len k : Nat) : sliceIdx len (k : Int) = min k len := by
  rw [sliceIdx, if_neg (by omega)]
  simp

theorem sliceIdx_zero (len : Nat) : sliceIdx len 0 = 0 := by
  rw [sliceIdx, if_neg (by omega)]
  simp

theorem pySliceFrom_append (a b : Str) : pySliceFrom (a ++ b) (a.length : Int) = b := by
  rw [pySliceFrom, pySlice, sliceIdx_ofNat, sliceIdx_ofNat, min_self, List.take_length]
  have h1 : min a.length (a ++ b).length = a.length := by
    rw [List.length_append]
    omega
  rw [h1, List.drop_left]

theorem pySliceTo_append (a b : Str) : pySliceTo (a ++ b) (a.length : Int) = a := by
  rw [pySliceTo, pySlice, sliceIdx_zero, List.drop_zero, sliceIdx_ofNat]
  have h1 : min a.length (a ++ b).length = a.length := by
    rw [List.length_append]
    omega
  rw [h1, List.take_left]

theorem dropWhile_eq_self_of {p : Char → Bool} :
    ∀ {s : Str}, (∀ c ∈ s, p c = false) → s.dropWhile p = s := by
  intro s h
  cases s with
  | nil => rfl
  | cons a l =>
    rw [List.dropWhile_cons, h a (List.mem_cons_self a l)]
    simp

theorem pyStrip_no_space {s : Str} (h : ∀ c ∈ s, isPySpace c = false) : pyStrip s = s := by
  rw [pyStrip, dropWhile_eq_self_of h, dropWhile_eq_self_of, List.reverse_reverse]
  intro c hc
  exact h c (List.mem_reverse.mp hc)

theorem isDig_not_space {c : Char} (h : isDig c = true) : isPySpace c = false := by
  rw [isDig_iff] at h
  rw [Bool.eq_false_iff]
  intro h2
  rw [isPySpace_iff] at h2
  omega

theorem isDig_ne_dot {c : Char} (h : isDig c = true) : c ≠ '.' := by
  rw [isDig_iff] at h
  rw [Ne, charEq_iff]
  have : Char.toNat '.' = 46 := rfl
  omega

theorem splitOnChar_no_sep {c : Char} : ∀ {s : Str}, c ∉ s → splitOnChar c s = [s] := by
  intro s
  induction s with
  | nil => intro _; rfl
  | cons a l ih =>
    intro h
    have h1 : ¬(c = a ∨ c ∈ l) := by simpa [List.mem_cons] using h
    push_neg at h1
    simp only [splitOnChar, ih h1.2]
    rw [if_neg (fun he => h1.1 he.symm)]
    rfl

theorem pyFloat_dot_digits (ds : Str) (hne : ds ≠ []) (hd : ds.all isDig = true) :
    pyFloat ('.' :: ds) = some ((digitsVal ds : ℚ) / ((10 ^ ds.length : Nat) : ℚ)) := by
  have hnotmem : '.' ∉ ds := by
    intro hm
    exact isDig_ne_dot (List.all_eq_true.mp hd _ hm) rfl
  have hstrip : pyStrip ('.' :: ds) = '.' :: ds := by
    apply pyStrip_no_space
    intro c hc
    rcases List.mem_cons.mp hc with h | h
    · rw [h]; rfl
    · exact isDig_not_space (List.all_eq_true.mp hd _ h)
  simp only [pyFloat, hstrip]
  rw [if_neg (by decide), if_neg (by decide)]
  have hsplit : splitOnChar '.' ('.' :: ds) = [[], ds] := by
    simp only [splitOnChar, splitOnChar_no_sep hnotmem]
    simp
  simp only [pyFloatMag, hsplit]
  simp only [List.nil_append, List.all_nil, true_and, List.length_nil]
  rw [if_pos ⟨hne, by simp [hd]⟩]
  simp [digitsVal]

/-! ## Rendering: `strftime`, the fractional directive, and rounding -/

theorem strftime_no_percent {s : Str} (tm : Tm) (h : ∀ c ∈ s, c ≠ '%') : strftime s tm = s := by
  induction s with
  | nil => rfl
  | cons a rest ih =>
    have ha := h a (List.mem_cons_self a rest)
    rw [strftime.eq_def]
    simp [ha, ih (fun c hc => h c (List.mem_cons_of_mem a hc))]

/-- Rendering the substituted default format: the date-time part plus the
literal dot and the digit block. -/
theorem strftime_default_frac (tm : Tm) (digits : Str) (hdp : ∀ c ∈ digits, c ≠ '%') :
    strftime (("%Y-%m-%d %H:%M:%S.".toList) ++ digits) tm = renderTm tm ++ '.' :: digits := by
  have hdig := strftime_no_percent tm hdp
  rw [renderTm]
  simp only [show ("%Y-%m-%d %H:%M:%S.".toList) =
    ['%', 'Y', '-', '%', 'm', '-', '%', 'd', ' ', '%', 'H', ':', '%', 'M', ':', '%', 'S', '.']
    from rfl]
  simp only [List.cons_append, List.nil_append]
  simp [strftime, fmtDir, hdig]
  rw [strftime.eq_def]
  simp [hdig, List.append_assoc]

/-- The bounded rounding: `rhe x` is within `1/2` of `x`. -/
theorem rhe_close (x : ℚ) : x - 1 / 2 ≤ (rhe x : ℚ) ∧ (rhe x : ℚ) ≤ x + 1 / 2 := by
  have hfl : (⌊x⌋ : ℚ) ≤ x := Int.floor_le x
  have hfu : x < (⌊x⌋ : ℚ) + 1 := Int.lt_floor_add_one x
  rw [rhe]
  split
  · constructor <;> linarith
  · split
    · push_cast
      constructor <;> linarith
    · split <;> push_cast <;> constructor <;> linarith

/-- With ties excluded, `rhe x` is strictly within `1/2` of `x`. -/
theorem rhe_strict (x : ℚ) (htie : ∀ kk : Int, 2 * x ≠ 2 * kk + 1) :
    x - 1 / 2 < (rhe x : ℚ) ∧ (rhe x : ℚ) < x + 1 / 2 := by
  have hfl : (⌊x⌋ : ℚ) ≤ x := Int.floor_le x
  have hfu : x < (⌊x⌋ : ℚ) + 1 := Int.lt_floor_add_one x
  rw [rhe]
  split
  case isTrue h1 => constructor <;> linarith
  case isFalse h1 =>
    split
    case isTrue h2 => push_cast; constructor <;> linarith
    case isFalse h2 =>
      exfalso
      have h3 : x - ⌊x⌋ = 1 / 2 := by linarith
      exact htie ⌊x⌋ (by linarith)

theorem rhe_nonneg (x : ℚ) (hx : 0 ≤ x) : 0 ≤ rhe x := by
  have h0 : 0 ≤ ⌊x⌋ := Int.floor_nonneg.mpr hx
  rw [rhe]
  split
  · omega
  · split
    · omega
    · split <;> omega

theorem rhe_lt (x : ℚ) (B : Nat) (hx : x < B - 1 / 2) : rhe x < B := by
  have h1 := (rhe_close x).2
  have h2 : (rhe x : ℚ) < B := by linarith
  exact_mod_cast h2

/-- For a value in `[0, 1)` whose scaled rounding does not carry, the
fixed-point rendering is `0.` followed by the padded digits. -/
theorem formatFixed_no_carry (X : Nat) (v : ℚ) (hX : X ≠ 0)
    (hn : (rhe (10 ^ X * v)).toNat < 10 ^ X) :
    formatFixed X v = '0' :: '.' :: padDigits X ((rhe (10 ^ X * v)).toNat) := by
  rw [formatFixed, if_neg hX, Nat.div_eq_of_lt hn, Nat.mod_eq_of_lt hn]
  rfl

/-! ## The `%.\df` search and the `str_to_time` branches -/

theorem drop_append_len (a : Str) (l : Str) (k : Nat) :
    (a ++ l).drop (a.length + k) = l.drop k := by
  induction a with
  | nil => simp
  | cons x xs ih =>
    simp only [List.cons_append, List.length_cons]
    have h1 : xs.length + 1 + k = (xs.length + k) + 1 := by omega
    rw [h1, List.drop_succ_cons, ih]

theorem endsWith_append (a b : Str) : endsWith (a ++ b) b = true := by
  rw [endsWith, decide_eq_true_eq, List.length_append, Nat.add_sub_cancel, List.drop_left]

theorem endsWith_optfrac_not_frac (fmt : Str) :
    endsWith (fmt ++ (".OPTFRAC".toList)) (".FRAC".toList) = false := by
  rw [endsWith]
  have h1 : (fmt ++ (".OPTFRAC".toList)).length - (".FRAC".toList).length = fmt.length + 3 := by
    rw [List.length_append]
    simp only [show ((".OPTFRAC".toList).length) = 8 from rfl, show ((".FRAC".toList).length) = 5 from rfl]
    omega
  rw [h1, drop_append_len]
  simp

theorem reFracSearch_cons_no (i0 : Nat) (x : Char) (hx : x ≠ '%') (L : Str) (hL : 3 ≤ L.length) :
    reFracSearch i0 (x :: L) = reFracSearch (i0 + 1) L := by
  rcases L with - | ⟨b, - | ⟨c, - | ⟨d, rest⟩⟩⟩
  · simp at hL
  · simp at hL
  · simp at hL
  · rw [reFracSearch.eq_def]
    simp only
    rw [if_neg (fun hcon => hx hcon.1)]

theorem reFracSearch_append (pre : Str) (hp : ∀ c ∈ pre, c ≠ '%') (Xc : Char)
    (hX : isDig Xc = true) (post : Str) :
    ∀ i0 : Nat, reFracSearch i0 (pre ++ '%' :: '.' :: Xc :: 'f' :: post) =
      some (i0 + pre.length, dv Xc) := by
  induction pre with
  | nil =>
    intro i0
    rw [List.nil_append, reFracSearch.eq_def]
    simp [hX]
  | cons x xs ih =>
    intro i0
    rw [List.cons_append]
    rw [reFracSearch_cons_no i0 x (hp x (List.mem_cons_self x xs)) _
      (by simp only [List.length_append, List.length_cons]; omega)]
    rw [ih (fun c hc => hp c (List.mem_cons_of_mem x hc)) (i0 + 1)]
    have harith : i0 + 1 + xs.length = i0 + (x :: xs).length := by
      simp only [List.length_cons]
      omega
    rw [harith]

theorem pySliceTo_negLen (a b : Str) (hb : b ≠ []) :
    pySliceTo (a ++ b) (-(b.length : Int)) = a := by
  rw [pySliceTo, pySlice, sliceIdx_zero, List.drop_zero]
  have hb1 : 1 ≤ b.length := by
    cases b
    · simp at hb
    · simp
  have h1 : sliceIdx (a ++ b).length (-(b.length : Int)) = a.length := by
    rw [sliceIdx, if_pos (by omega), List.length_append]
    omega
  rw [h1, List.take_left]

/-- The `.OPTFRAC` branch of `str_to_time` when the input has a dot with at
least one character after it: the result is the strptime epoch of the prefix
plus the parsed fraction. -/
theorem str_to_time_optfrac_dot (fmt s : Str) (i : Nat) (fr : ℚ) (e : Int)
    (hrf : pyRfind s '.' = (i : Int))
    (hlen : (pySliceFrom s (i : Int)).length > 1)
    (hfr : pyFloat (pySliceFrom s (i : Int)) = some fr)
    (hep : strptimeEpoch (pySliceTo s (i : Int)) fmt = some e) :
    str_to_time s (fmt ++ (".OPTFRAC".toList)) = .ok ((e : ℚ) + fr) := by
  rw [str_to_time]
  rw [endsWith_optfrac_not_frac fmt]
  rw [if_neg (by simp)]
  rw [endsWith_append fmt (".OPTFRAC".toList)]
  rw [if_pos rfl]
  have hsl : pySliceTo (fmt ++ (".OPTFRAC".toList)) (-8) = fmt := by
    have h8 := pySliceTo_negLen fmt (".OPTFRAC".toList) (by decide)
    norm_num at h8
    exact h8
  rw [hsl, hrf]
  rw [if_pos ⟨by omega, hlen⟩]
  simp only [hfr, hep]

/-- The `.FRAC` branch of `str_to_time` when the input has no dot: the
`FractionalSecondsMissing` error. -/
theorem str_to_time_frac_missing (fmt s : Str) (h : '.' ∉ s) :
    str_to_time s (fmt ++ (".FRAC".toList)) = .error .fracMissing := by
  rw [str_to_time]
  rw [endsWith_append fmt (".FRAC".toList)]
  rw [if_pos rfl]
  have h2 : pyRfind s '.' = -1 := by rw [pyRfind, pyRfindAux_none h]
  rw [h2, if_pos rfl]

/-! ## The default-format round trip -/

theorem percent_notMem_padDigits (k n : Nat) : ∀ c ∈ padDigits k n, c ≠ '%' := by
  induction k generalizing n with
  | zero => simp [padDigits]
  | succ k ih =>
    intro c hc
    rw [padDigits] at hc
    rcases List.mem_append.mp hc with h | h
    · exact ih _ c h
    · rw [List.mem_singleton] at h
      rw [h]
      exact digitChar_ne_percent n

theorem length_padDigits (k n : Nat) : (padDigits k n).length = k := by
  induction k generalizing n with
  | zero => rfl
  | succ k ih => simp [padDigits, ih]

/-- `time_to_str` at the default format, when the scaled fraction does not
carry into the integer part. -/
theorem time_to_str_default (t : ℚ)
    (hn : (rhe (1000 * (t - ⌊t⌋))).toNat < 1000) :
    time_to_str t = some (renderTm (gmtimeZ ⌊t⌋) ++
      '.' :: padDigits 3 ((rhe (1000 * (t - ⌊t⌋))).toNat)) := by
  have hsearch : reFracSearch 0 ("%Y-%m-%d %H:%M:%S.%.3f".toList) = some (18, 3) := by decide
  have hconv : (10 : ℚ) ^ 3 * (t - ⌊t⌋) = 1000 * (t - ⌊t⌋) := by norm_num
  have hn2 : (rhe ((10 : ℚ) ^ 3 * (t - ⌊t⌋))).toNat < 10 ^ 3 := by
    rw [hconv]
    have h3 : (10 : Nat) ^ 3 = 1000 := by norm_num
    omega
  rw [time_to_str]
  simp only [hsearch]
  rw [if_pos (by decide)]
  rw [show (("%Y-%m-%d %H:%M:%S.%.3f".toList).take 18) = ("%Y-%m-%d %H:%M:%S.".toList) from rfl]
  rw [show (("%Y-%m-%d %H:%M:%S.%.3f".toList).drop 22) = ([] : Str) from rfl]
  rw [formatFixed_no_carry 3 _ (by omega) hn2]
  rw [show (('0' :: '.' :: padDigits 3 ((rhe ((10 : ℚ) ^ 3 * (t - ⌊t⌋))).toNat)).drop 2)
    = padDigits 3 ((rhe ((10 : ℚ) ^ 3 * (t - ⌊t⌋))).toNat) from rfl]
  rw [List.append_nil]
  rw [strftime_default_frac _ _ (percent_notMem_padDigits 3 _)]
  rw [hconv]

/-- Parsing the rendered prefix of an in-range `Tm` against the stripped
default format yields its `timegm` epoch. -/
theorem strptimeEpoch_render (tm : Tm) (e : Int) (hY : tm.year < 10000)
    (hm1 : 1 ≤ tm.month) (hm2 : tm.month ≤ 12)
    (hd1 : 1 ≤ tm.day) (hd2 : tm.day ≤ 31)
    (hH : tm.hour ≤ 23) (hM : tm.min ≤ 59) (hS : tm.sec ≤ 59)
    (he : timegm tm = some e) :
    strptimeEpoch (renderTm tm) ("%Y-%m-%d %H:%M:%S".toList) = some e := by
  rw [strptimeEpoch, strptimeTm]
  simp only [compile_defaultFmt, Option.bind_eq_bind, Option.some_bind]
  rw [runToks_render tm hY hm1 hm2 hd1 hd2 hH hM hS]
  simp only [Option.some_bind]
  exact he

/-- Parsing the full rendered default-format string (date-time, dot, three
digits) recovers the epoch plus the digit fraction. -/
theorem str_to_time_rendered (tm : Tm) (e : Int) (n10 : Nat)
    (hY : tm.year < 10000) (hm1 : 1 ≤ tm.month) (hm2 : tm.month ≤ 12)
    (hd1 : 1 ≤ tm.day) (hd2 : tm.day ≤ 31)
    (hH : tm.hour ≤ 23) (hM : tm.min ≤ 59) (hS : tm.sec ≤ 59)
    (he : timegm tm = some e) (hn : n10 < 1000) :
    str_to_time (renderTm tm ++ '.' :: padDigits 3 n10) =
      .ok ((e : ℚ) + (n10 : ℚ) / 1000) := by
  have hdisj : ("%Y-%m-%d %H:%M:%S.OPTFRAC".toList) =
      ("%Y-%m-%d %H:%M:%S".toList) ++ (".OPTFRAC".toList) := by decide
  rw [str_to_time, hdisj, ← str_to_time]
  have hdig : (padDigits 3 n10).all isDig = true := all_isDig_padDigits 3 n10
  have hdne : padDigits 3 n10 ≠ [] := by
    intro hcon
    have := length_padDigits 3 n10
    rw [hcon] at this
    simp at this
  have hrf : pyRfind (renderTm tm ++ '.' :: padDigits 3 n10) '.' = ((renderTm tm).length : Int) :=
    pyRfind_append _ (dot_notMem_padDigits 3 n10)
  have hlen : (pySliceFrom (renderTm tm ++ '.' :: padDigits 3 n10)
      ((renderTm tm).length : Int)).length > 1 := by
    rw [pySliceFrom_append]
    simp [length_padDigits]
  have hfr2 : pyFloat (pySliceFrom (renderTm tm ++ '.' :: padDigits 3 n10)
      ((renderTm tm).length : Int)) = some ((n10 : ℚ) / 1000) := by
    rw [pySliceFrom_append, pyFloat_dot_digits _ hdne hdig, digitsVal_padDigits,
      length_padDigits]
    have hmod : n10 % 10 ^ 3 = n10 := Nat.mod_eq_of_lt (by omega)
    rw [hmod]
    norm_num
  have hept : strptimeEpoch (pySliceTo (renderTm tm ++ '.' :: padDigits 3 n10)
      ((renderTm tm).length : Int)) ("%Y-%m-%d %H:%M:%S".toList) = some e := by
    rw [pySliceTo_append]
    exact strptimeEpoch_render tm e hY hm1 hm2 hd1 hd2 hH hM hS he
  exact str_to_time_optfrac_dot _ _ _ _ _ hrf hlen hfr2 hept

/-- Claim C1 (amended): for every epoch value `t` in the `strftime`-formatable
range `[0, 253402300800)` (years 1970–9999) whose fractional part is below
`0.9995` (so the 3-digit rendering does not carry to `1.000`) and is not an
exact half-thousandth tie, the default-format round trip
`str_to_time (time_to_str t)` recovers `t` with absolute error strictly
below `0.0005`. -/
theorem claim_C1_roundtrip_amended (t : ℚ) (h0 : 0 ≤ t) (hB : t < 253402300800)
    (hfr : t - ⌊t⌋ < 1999 / 2000)
    (htie : ∀ kk : Int, (t - ⌊t⌋) * 2000 ≠ 2 * kk + 1) :
    ∃ out r, time_to_str t = some out ∧ str_to_time out = .ok r ∧
      ratAbs (r - t) < 1 / 2000 := by
  have hts0 : 0 ≤ ⌊t⌋ := Int.floor_nonneg.mpr h0
  have htsB : ⌊t⌋ < 253402300800 := by
    rw [Int.floor_lt]
    push_cast
    exact hB
  have hfl : (⌊t⌋ : ℚ) ≤ t := Int.floor_le t
  have hfr0 : 0 ≤ t - ⌊t⌋ := by linarith
  have hx0 : 0 ≤ (1000 : ℚ) * (t - ⌊t⌋) := by positivity
  have hrhe0 : 0 ≤ rhe (1000 * (t - ⌊t⌋)) := rhe_nonneg _ hx0
  have hnltZ : rhe (1000 * (t - ⌊t⌋)) < 1000 := by
    apply rhe_lt _ 1000
    push_cast
    linarith
  have hn : (rhe (1000 * (t - ⌊t⌋))).toNat < 1000 := by omega
  have hout := time_to_str_default t hn
  have hNat : (⌊t⌋).toNat < 253402300800 := by omega
  obtain ⟨hb1, hb2, hb3, hb4, hb5, hb6, hb7, hb8, hb9, hb10⟩ := gmtimeN_spec (⌊t⌋).toNat hNat
  have hb10e : timegm (gmtimeN (⌊t⌋).toNat) = some ⌊t⌋ := by
    rw [hb10]
    congr 1
    omega
  have hparse := str_to_time_rendered (gmtimeN (⌊t⌋).toNat) ⌊t⌋
    ((rhe ((1000 : ℚ) * (t - ⌊t⌋))).toNat) (by omega) hb3 hb4 hb5 hb6 hb7 hb8 hb9 hb10e hn
  have hcast : ((rhe (1000 * (t - ⌊t⌋))).toNat : ℚ) = ((rhe (1000 * (t - ⌊t⌋)) : Int) : ℚ) := by
    norm_cast
    omega
  have hstrict := rhe_strict (1000 * (t - ⌊t⌋))
    (fun kk hk => htie kk (by linarith))
  refine ⟨renderTm (gmtimeZ ⌊t⌋) ++ '.' :: padDigits 3 ((rhe (1000 * (t - ⌊t⌋))).toNat),
    (⌊t⌋ : ℚ) + ((rhe (1000 * (t - ⌊t⌋))).toNat : ℚ) / 1000, hout, ?_, ?_⟩
  · rw [gmtimeZ]
    exact hparse
  · rw [ratAbs]
    obtain ⟨hs1, hs2⟩ := hstrict
    rw [hcast]
    split
    · linarith
    · linarith

/-! ## `unpack_fixed`: step lemmas -/

/-- A non-blank (or non-optional) `@` field applies the `icall`-th callback
and advances both cursors. -/
theorem unpackStep_cb (line : Str) (cbs : List Cb) (form : Str) (st : UState)
    (o : Bool) (w : Int) (cb : Cb) (v : Val)
    (hpf : parseForm form = some (o, '@', w))
    (hcb : cbs[st.icall]? = some cb)
    (hblank : ¬(o = true ∧ pyStrip (pySlice line st.ipos (st.ipos + w)) = []))
    (hv : cb (pySlice line st.ipos (st.ipos + w)) = some v) :
    unpackStep line cbs form st = .ok ⟨st.ipos + w, st.icall + 1, st.values ++ [some v]⟩ := by
  simp only [unpackStep, hpf]
  rw [if_neg (by decide), if_pos (by decide), if_pos trivial, hcb]
  simp only
  rw [if_neg hblank, hv]

/-- A blank optional `@` field still consumes the callback (the index
advances) but appends `None` without invoking it. -/
theorem unpackStep_cb_blank (line : Str) (cbs : List Cb) (form : Str) (st : UState)
    (w : Int) (cb : Cb)
    (hpf : parseForm form = some (true, '@', w))
    (hcb : cbs[st.icall]? = some cb)
    (hblank : pyStrip (pySlice line st.ipos (st.ipos + w)) = []) :
    unpackStep line cbs form st = .ok ⟨st.ipos + w, st.icall + 1, st.values ++ [none]⟩ := by
  simp only [unpackStep, hpf]
  rw [if_neg (by decide), if_pos (by decide), if_pos trivial, hcb]
  simp only
  rw [if_pos ⟨trivial, hblank⟩]

/-- An `@` field with the callback list exhausted fails, even before the
blank test. -/
theorem unpackStep_cb_exhausted (line : Str) (cbs : List Cb) (form : Str) (st : UState)
    (o : Bool) (w : Int)
    (hpf : parseForm form = some (o, '@', w))
    (hcb : cbs[st.icall]? = none) :
    unpackStep line cbs form st = .error .callbackExhausted := by
  simp only [unpackStep, hpf]
  rw [if_neg (by decide), if_pos (by decide), if_pos trivial, hcb]

/-! ## Claim theorems -/

/-- Claim C8: after processing each field the cursor advances by exactly the
field's declared width, independent of its type and optionality; over a whole
format the total advance is the sum of the declared widths. -/
theorem claim_C8_cursor_advance :
    (∀ (line : Str) (cbs : List Cb) (form : Str) (st st2 : UState),
      unpackStep line cbs form st = .ok st2 →
      ∃ o typ w, parseForm form = some (o, typ, w) ∧ st2.ipos = st.ipos + w) ∧
    (∀ (line : Str) (cbs : List Cb) (forms : List Str) (st st2 : UState),
      unpackLoop line cbs forms st = .ok st2 →
      st2.ipos = st.ipos + (forms.map widthOf).sum) := by
  have hstep : ∀ (line : Str) (cbs : List Cb) (form : Str) (st st2 : UState),
      unpackStep line cbs form st = .ok st2 →
      ∃ o typ w, parseForm form = some (o, typ, w) ∧ st2.ipos = st.ipos + w := by
    intro line cbs form st st2 h
    rw [unpackStep] at h
    cases hpf : parseForm form with
    | none =>
      rw [hpf] at h
      exact absurd h (by simp)
    | some otw =>
      obtain ⟨o, typ, w⟩ := otw
      rw [hpf] at h
      simp only at h
      refine ⟨o, typ, w, rfl, ?_⟩
      split at h
      · cases h
        rfl
      · split at h
        · split at h
          · exact absurd h (by simp)
          · rename_i pick cast hpick
            split at h
            · cases h
              rfl
            · split at h
              · cases h
                rfl
              · exact absurd h (by simp)
        · exact absurd h (by simp)
  refine ⟨hstep, ?_⟩
  intro line cbs forms
  induction forms with
  | nil =>
    intro st st2 h
    rw [unpackLoop] at h
    cases h
    simp
  | cons f fs ih =>
    intro st st2 h
    rw [unpackLoop] at h
    cases hs : unpackStep line cbs f st with
    | error e => rw [hs] at h; exact absurd h (by simp)
    | ok stm =>
      rw [hs] at h
      have h1 := ih stm st2 h
      obtain ⟨o, typ, w, hpf, hadv⟩ := hstep line cbs f st stm hs
      have hw : widthOf f = w := by rw [widthOf, hpf]
      rw [List.map_cons, List.sum_cons, hw]
      omega

/-- Claim C9: callbacks are consumed one per `@` field in order and invoked
at most once per occurrence; `unpack("@3", "xyz", [upper])` applies the
callback to the full slice, and with no callbacks the call fails with
`CallbackExhausted`. -/
theorem claim_C9_callbacks (f : Cb) (v : Val) (hf : f ("xyz".toList) = some v) :
    unpack_fixed ("@3".toList) ("xyz".toList) [f] = .ok [some v] ∧
    unpack_fixed ("@3".toList) ("xyz".toList) [] = .error .callbackExhausted := by
  constructor
  · have h1 : unpackStep ("xyz".toList) [f] ("@3".toList) ⟨0, 0, []⟩ = .ok ⟨3, 1, [some v]⟩ :=
      unpackStep_cb ("xyz".toList) [f] ("@3".toList) ⟨0, 0, []⟩ false 3 f v rfl rfl
        (by decide) hf
    rw [unpack_fixed, show splitComma ("@3".toList) = [("@3".toList)] from rfl]
    simp only [unpackLoop, h1]
    rfl
  · have h1 : unpackStep ("xyz".toList) [] ("@3".toList) ⟨0, 0, []⟩ =
        .error .callbackExhausted :=
      unpackStep_cb_exhausted ("xyz".toList) [] ("@3".toList) ⟨0, 0, []⟩ false 3 rfl rfl
    rw [unpack_fixed, show splitComma ("@3".toList) = [("@3".toList)] from rfl]
    simp only [unpackLoop, h1]
    rfl

/-- Claim C10: a blank optional `@` field consumes (but does not invoke) the
next callback, so a later `@` field gets a strictly later callback and the
exhausted failure can fire on a blank optional field. -/
theorem claim_C10_blank_consumes_callback (f g : Cb) (v : Val)
    (hg : g ("AB".toList) = some v) :
    unpack_fixed ("@2?,@2".toList) ("  AB".toList) [f, g] = .ok [none, some v] ∧
    unpack_fixed ("@2?".toList) ("  ".toList) [] = .error .callbackExhausted := by
  constructor
  · have h1 : unpackStep ("  AB".toList) [f, g] ("@2?".toList) ⟨0, 0, []⟩ =
        .ok ⟨2, 1, [none]⟩ :=
      unpackStep_cb_blank ("  AB".toList) [f, g] ("@2?".toList) ⟨0, 0, []⟩ 2 f rfl rfl
        (by decide)
    have h2 : unpackStep ("  AB".toList) [f, g] ("@2".toList) ⟨2, 1, [none]⟩ =
        .ok ⟨4, 2, [none, some v]⟩ :=
      unpackStep_cb ("  AB".toList) [f, g] ("@2".toList) ⟨2, 1, [none]⟩ false 2 g v rfl rfl
        (by decide) hg
    rw [unpack_fixed,
      show splitComma ("@2?,@2".toList) = [("@2?".toList), ("@2".toList)] from rfl]
    simp only [unpackLoop, h1, h2]
    rfl
  · have h1 : unpackStep ("  ".toList) [] ("@2?".toList) ⟨0, 0, []⟩ =
        .error .callbackExhausted :=
      unpackStep_cb_exhausted ("  ".toList) [] ("@2?".toList) ⟨0, 0, []⟩ true 2 rfl rfl
    rw [unpack_fixed, show splitComma ("@2?".toList) = [("@2?".toList)] from rfl]
    simp only [unpackLoop, h1]
    rfl

/-- Claim C7: one converted value per non-skip field in descriptor order
(`A` raw slice, `i` integer, `f` float), and a blank optional field yields
`None`: the two documented examples. -/
theorem claim_C7_examples :
    unpack_fixed ("A4,i2,f5?".toList) ("ABCD421.50".toList) [] =
      .ok [some (.vStr ("ABCD".toList)), some (.vInt 42), some (.vFloat (3 / 2))] ∧
    unpack_fixed ("A4,i2,f5?".toList) ("ABCD42     ".toList) [] =
      .ok [some (.vStr ("ABCD".toList)), some (.vInt 42), none] := by
  constructor
  · decide
  · decide

/-- Claim C3 (code bug): a failed conversion of the width-2 field `i2` at
offset 0 is reported with the character range `[0:1]` (`ipos, ipos + 1`),
not the field's full range `[0:2]`; moreover the raise site names the
undefined `SeisanResponseFileError`. -/
theorem claim_C3_cast_error_range :
    unpack_fixed ("i2".toList) ("ab".toList) [] = .error (.castError 0 1) := by
  decide

/-- Claim C2 (code bug): with the default `.OPTFRAC` format and a dot-free
input, `s = s[:dotpos]` with `dotpos = -1` silently drops the last character:
`"2009-01-01 00:00:05"` is parsed as `"2009-01-01 00:00:0"`, yielding the
epoch of 2009-01-01T00:00:00Z (1230768000) instead of `... + 5`; the claim's
own dot-free example coincidentally still yields the documented value. -/
theorem claim_C2_truncation :
    str_to_time ("2009-01-01 00:00:05".toList) = .ok 1230768000 ∧
    str_to_time ("2009-01-01 00:00:00".toList) = .ok 1230768000 := by
  constructor
  · decide
  · decide

/-- Claim C5: a format ending in `.FRAC` with a dot-free input raises
`FractionalSecondsMissing`. -/
theorem claim_C5_frac_missing (fmt s : Str) (h : '.' ∉ s) :
    str_to_time s (fmt ++ (".FRAC".toList)) = .error .fracMissing :=
  str_to_time_frac_missing fmt s h

/-- Witness for C5 at the documented example. -/
theorem claim_C5_witness :
    '.' ∉ ("2009-01-01 00:00:00".toList) ∧
    str_to_time ("2009-01-01 00:00:00".toList) ("%Y-%m-%d %H:%M:%S.FRAC".toList) =
      .error .fracMissing := by
  refine ⟨by decide, ?_⟩
  have h := claim_C5_frac_missing ("%Y-%m-%d %H:%M:%S".toList) ("2009-01-01 00:00:00".toList)
    (by decide)
  rw [show ("%Y-%m-%d %H:%M:%S.FRAC".toList) =
    ("%Y-%m-%d %H:%M:%S".toList) ++ (".FRAC".toList) from rfl]
  exact h

/-- Claim C4: a format ending in `.OPTFRAC` with a dot followed by at least
one character: the result is the integer-second epoch of the prefix before
the (last) dot, parsed against the marker-stripped format, plus the parsed
fractional value. -/
theorem claim_C4_optfrac_fraction (fmt s : Str) (i : Nat) (fr : ℚ) (e : Int)
    (hrf : pyRfind s '.' = (i : Int))
    (hlen : (pySliceFrom s (i : Int)).length > 1)
    (hfr : pyFloat (pySliceFrom s (i : Int)) = some fr)
    (hep : strptimeEpoch (pySliceTo s (i : Int)) fmt = some e) :
    str_to_time s (fmt ++ (".OPTFRAC".toList)) = .ok ((e : ℚ) + fr) :=
  str_to_time_optfrac_dot fmt s i fr e hrf hlen hfr hep

/-- Witness for C4 at the documented example. -/
theorem claim_C4_witness :
    pyRfind ("2009-01-01 00:00:00.5".toList) '.' = (19 : Int) ∧
    pyFloat (pySliceFrom ("2009-01-01 00:00:00.5".toList) (19 : Int)) = some (1 / 2) ∧
    strptimeEpoch (pySliceTo ("2009-01-01 00:00:00.5".toList) (19 : Int))
      ("%Y-%m-%d %H:%M:%S".toList) = some 1230768000 ∧
    str_to_time ("2009-01-01 00:00:00.5".toList) ("%Y-%m-%d %H:%M:%S.OPTFRAC".toList) =
      .ok (((1230768000 : Int) : ℚ) + 1 / 2) := by
  refine ⟨by decide, by decide, by decide, ?_⟩
  have h := claim_C4_optfrac_fraction ("%Y-%m-%d %H:%M:%S".toList)
    ("2009-01-01 00:00:00.5".toList) 19 (1 / 2) 1230768000
    (by decide) (by decide) (by decide) (by decide)
  rw [show ("%Y-%m-%d %H:%M:%S.OPTFRAC".toList) =
    ("%Y-%m-%d %H:%M:%S".toList) ++ (".OPTFRAC".toList) from rfl]
  exact h

/-- Claim C6: when the first `%.\df` match of the format is a genuine
`%.Xf` directive (no `%` occurs before it) and the fixed-point rendering of
the fractional part has the leading `0.`, the digit string (with `0.`
stripped) replaces that first directive occurrence only, and the rest of the
format is rendered unchanged; in particular `t = 1234567890.12345` with
`%.3f` substitutes `123`. -/
theorem claim_C6_frac_directive :
    (∀ (t : ℚ) (pre : Str) (Xc : Char) (post ds : Str),
      (∀ c ∈ pre, c ≠ '%') → isDig Xc = true →
      formatFixed (dv Xc) (t - ⌊t⌋) = '0' :: '.' :: ds →
      time_to_str t (pre ++ '%' :: '.' :: Xc :: 'f' :: post) =
        some (strftime (pre ++ ds ++ post) (gmtimeZ ⌊t⌋))) ∧
    time_to_str (1234567890 + 12345 / 100000) ("%.3f".toList) = some ("123".toList) := by
  constructor
  · intro t pre Xc post ds hpre hX hff
    rw [time_to_str]
    have hs := reFracSearch_append pre hpre Xc hX post 0
    rw [Nat.zero_add] at hs
    simp only [hs]
    have hdrop1 : (pre ++ '%' :: '.' :: Xc :: 'f' :: post).drop (pre.length + 1) =
        '.' :: Xc :: 'f' :: post := by
      rw [drop_append_len pre _ 1]
      rfl
    rw [if_pos (by rw [hdrop1]; rfl)]
    have htake : (pre ++ '%' :: '.' :: Xc :: 'f' :: post).take pre.length = pre :=
      List.take_left pre _
    have hdrop4 : (pre ++ '%' :: '.' :: Xc :: 'f' :: post).drop (pre.length + 4) = post := by
      rw [drop_append_len pre _ 4]
      rfl
    rw [htake, hdrop4, hff]
    rfl
  · decide

/-- Claim C1 counterexample: as stated the round-trip claim fails on the
code.  At `t = 1230768000 + 2047/2048` (fractional part `0.99951…`) the
3-digit rendering carries to `1.000`, the slice `[2:]` turns it into `000`,
and the reparsed value is off by almost a whole second.  At
`t = 1230768000 + 1/16` (an exact representable tie) the error is exactly
`0.0005`, not strictly below it. -/
theorem claim_C1_counterexample :
    time_to_str (1230768000 + 2047 / 2048 : ℚ) = some ("2009-01-01 00:00:00.000".toList) ∧
    str_to_time ("2009-01-01 00:00:00.000".toList) = .ok 1230768000 ∧
    ¬(ratAbs ((1230768000 : ℚ) - (1230768000 + 2047 / 2048)) < 1 / 2000) ∧
    time_to_str (1230768000 + 1 / 16 : ℚ) = some ("2009-01-01 00:00:00.062".toList) ∧
    str_to_time ("2009-01-01 00:00:00.062".toList) = .ok (1230768000 + 62 / 1000) ∧
    ¬(ratAbs ((1230768000 + 62 / 1000 : ℚ) - (1230768000 + 1 / 16)) < 1 / 2000) := by
  refine ⟨by decide, by decide, by decide, by decide, by decide, by decide⟩

/-- Witness for the amended C1 at `t = 1234567890.125`. -/
theorem claim_C1_witness :
    ∃ out r, time_to_str (1234567890 + 1 / 8 : ℚ) = some out ∧
      str_to_time out = .ok r ∧ ratAbs (r - (1234567890 + 1 / 8)) < 1 / 2000 := by
  have hfl : ⌊(1234567890 + 1 / 8 : ℚ)⌋ = 1234567890 := by decide
  apply claim_C1_roundtrip_amended (1234567890 + 1 / 8 : ℚ)
  · norm_num
  · norm_num
  · rw [hfl]
    norm_num
  · intro kk hk
    rw [hfl] at hk
    norm_num at hk
    have h2 : (2 * kk + 1 : ℤ) = 250 := by exact_mod_cast hk.symm
    omega

/-- Witness for C6 at the documented example. -/
theorem claim_C6_witness :
    formatFixed (dv '3') ((1234567890 + 12345 / 100000 : ℚ) -
      ⌊(1234567890 + 12345 / 100000 : ℚ)⌋) = '0' :: '.' :: ("123".toList) ∧
    time_to_str (1234567890 + 12345 / 100000) ("%.3f".toList) =
      some (strftime ([] ++ ("123".toList) ++ []) (gmtimeZ ⌊(1234567890 + 12345 / 100000 : ℚ)⌋)) := by
  refine ⟨by decide, ?_⟩
  have h := claim_C6_frac_directive.1 (1234567890 + 12345 / 100000) [] '3' [] ("123".toList)
    (by simp) (by decide) (by decide)
  exact h

/-- Witness for C8: a skip field of width 3 advances the cursor by 3, and the
documented three-field format consumes the sum of its widths (11). -/
theorem claim_C8_witness :
    (∃ o typ w, parseForm ("x3".toList) = some (o, typ, w) ∧
      (⟨3, 0, []⟩ : UState).ipos = (⟨0, 0, []⟩ : UState).ipos + w) ∧
    (⟨11, 0, [some (.vStr ("ABCD".toList)), some (.vInt 42), some (.vFloat (3 / 2))]⟩ :
        UState).ipos =
      (⟨0, 0, []⟩ : UState).ipos + ((splitComma ("A4,i2,f5?".toList)).map widthOf).sum := by
  constructor
  · apply claim_C8_cursor_advance.1 ("ABCDEF".toList) [] ("x3".toList) ⟨0, 0, []⟩ ⟨3, 0, []⟩
    decide
  · apply claim_C8_cursor_advance.2 ("ABCD421.50".toList) [] (splitComma ("A4,i2,f5?".toList))
      ⟨0, 0, []⟩
    decide

/-- Witness for C9 with the documented upper-casing callback. -/
theorem claim_C9_witness :
    (fun s => some (Val.vStr (s.map Char.toUpper)) : Cb) ("xyz".toList) =
      some (.vStr ("XYZ".toList)) ∧
    unpack_fixed ("@3".toList) ("xyz".toList) [fun s => some (.vStr (s.map Char.toUpper))] =
      .ok [some (.vStr ("XYZ".toList))] ∧
    unpack_fixed ("@3".toList) ("xyz".toList) [] = .error .callbackExhausted := by
  have h := claim_C9_callbacks (fun s => some (.vStr (s.map Char.toUpper)))
    (.vStr ("XYZ".toList)) (by decide)
  exact ⟨by decide, h.1, h.2⟩

/-- Witness for C10 with concrete callbacks: the second `@` field receives
the second callback even though the first was never invoked. -/
theorem claim_C10_witness :
    (fun s => some (Val.vStr s) : Cb) ("AB".toList) = some (.vStr ("AB".toList)) ∧
    unpack_fixed ("@2?,@2".toList) ("  AB".toList)
      [fun _ => some (.vInt 1), fun s => some (.vStr s)] =
      .ok [none, some (.vStr ("AB".toList))] ∧
    unpack_fixed ("@2?".toList) ("  ".toList) [] = .error .callbackExhausted := by
  have h := claim_C10_blank_consumes_callback (fun _ => some (.vInt 1))
    (fun s => some (.vStr s)) (.vStr ("AB".toList)) rfl
  exact ⟨rfl, h.1, h.2⟩

end Pyrocko
